import Mathlib

/-!
Shallow embedding of the hybrid visual product search engine of this
repository (`image_identifier_api.py` and `indexer.py`): a two-tier image
search that combines perceptual-hash exact matching (Tier 1) with
embedding-based semantic search plus per-product re-ranking (Tier 2), and
the offline indexer that builds the three parallel artifact stores.

Modelling conventions:
* Similarity scores and embedding coordinates are rationals (`ℚ`), the exact
  counterpart of the source's real-valued float arithmetic.
* A perceptual hash is modelled as its bit vector (`List Bool`); the source
  stores hex strings and `imagehash` subtraction counts differing bits,
  modelled here by `hamming`.
* The FAISS call `index.search(query_embedding, k)` is an external oracle;
  it is modelled as a function `ℕ → List (ℚ × ℕ)` from `k` to the returned
  `(score, slot)` rows that `search_similar_product` consumes.  Slot labels
  are modelled as naturals (the faiss `-1` padding sentinel for underfull
  result sets is outside the model).
* The CLIP encoder and the category detector are likewise oracles: a query
  enters the model as its perceptual hash, its detected category, and its
  embedding-search result rows.
-/

/-- A perceptual hash, as the bit vector its hex string encodes. -/
abbrev Hash := List Bool

/-- A dense image embedding vector. -/
abbrev Emb := List ℚ

/-- One metadata record: the per-image entry of `metadata.pkl`
(`product_name`, `product_url`, `image_url`, `price`; `price` already
carries the `'N/A'` default applied at build or read time). -/
structure Meta where
  product_name : String
  product_url : String
  image_url : String
  price : String
deriving DecidableEq, Repr

/-- `EXACT_MATCH_HASH_THRESHOLD = 5` from `image_identifier_api.py`. -/
def EXACT_MATCH_HASH_THRESHOLD : ℕ := 5

/-- `SIMILARITY_THRESHOLD_HIGH = 0.82`. -/
def SIMILARITY_THRESHOLD_HIGH : ℚ := 0.82

/-- `SIMILARITY_THRESHOLD_MEDIUM = 0.72`. -/
def SIMILARITY_THRESHOLD_MEDIUM : ℚ := 0.72

/-- `SIMILARITY_THRESHOLD_LOW = 0.62`. -/
def SIMILARITY_THRESHOLD_LOW : ℚ := 0.62

/-- Hamming distance between two stored hashes: `imagehash` subtraction
counts the positions where the two bit vectors differ. -/
def hamming (a b : Hash) : ℕ :=
  ((a.zip b).filter (fun p => p.1 != p.2)).length

/-- `PRODUCT_CATEGORIES` from `image_identifier_api.py`, in Python dict
insertion order (which the category loops iterate in). -/
def PRODUCT_CATEGORIES : List (String × List String) :=
  [("watch", ["watch", "wrist", "timepiece", "chronograph"]),
   ("bag", ["bag", "purse", "handbag", "tote", "clutch", "satchel", "backpack", "shoulder"]),
   ("sunglasses", ["sunglasses", "sunglass", "eyewear", "shades", "glasses"]),
   ("shoes", ["shoes", "shoe", "footwear", "sneakers", "boots", "sandals"]),
   ("wallet", ["wallet", "purse"]),
   ("bracelet", ["bracelet", "bangle", "jewellery", "jewelry"])]

/-- Whether `p` occurs at the head of `h` (helper for substring search). -/
def subAt (p h : List Char) : Bool :=
  match p, h with
  | [], _ => true
  | _ :: _, [] => false
  | a :: ps, b :: hs => a == b && subAt ps hs

/-- Whether `p` occurs as a contiguous run anywhere in `h`: the Python
`needle in haystack` test on strings. -/
def hasSub (p h : List Char) : Bool :=
  match h with
  | [] => p.isEmpty
  | _ :: t => subAt p h || hasSub p t

/-- Python's `needle in haystack` on strings. -/
def strIn (needle hay : String) : Bool :=
  hasSub needle.data hay.data

/-- Python's `str.lower()` (ASCII case folding, which covers every keyword
and name the engine compares). -/
def lowerStr (s : String) : String :=
  ⟨s.data.map Char.toLower⟩

/-- The category keyword loop of `search_product`: first category in
`PRODUCT_CATEGORIES` order any of whose keywords occurs (lower-cased) in
the lower-cased product name; default `"watches"`. -/
def categoryOf (name : String) : String :=
  match PRODUCT_CATEGORIES.find?
      (fun c => c.2.any (fun kw => strIn (lowerStr kw) (lowerStr name))) with
  | some c => c.1
  | none => "watches"

/-- The scan loop of `find_exact_match_by_hash`: walks the hash index in
insertion order keeping the best entry so far; an entry replaces the best
when its distance is `≤ max_distance` and strictly below the best distance
(`best_distance` starts at infinity, modelled by `none`). -/
def findLoop (query : Hash) (max_distance : ℕ) :
    List (ℕ × Hash) → Option (ℕ × ℕ) → Option (ℕ × ℕ)
  | [], best => best
  | (idx, h) :: rest, best =>
    let d := hamming query h
    let keep : Bool :=
      match best with
      | none => decide (d ≤ max_distance)
      | some (_, bd) => decide (d ≤ max_distance) && decide (d < bd)
    findLoop query max_distance rest (if keep then some (idx, d) else best)

/-- `find_exact_match_by_hash` from `image_identifier_api.py`: `none` on an
empty hash index (`if not hash_index`), else the scan loop starting with no
best match. -/
def find_exact_match_by_hash (hashIndex : List (ℕ × Hash)) (query : Hash)
    (max_distance : ℕ) : Option (ℕ × ℕ) :=
  if hashIndex.isEmpty then none
  else findLoop query max_distance hashIndex none

/-- Stable descending insertion by a rational key (used for
`sorted(scores, reverse=True)` and `results.sort(key=..., reverse=True)`:
both are stable descending sorts, and stability plus the multiset of keys
determine the output). -/
def insertDescBy {α : Type} (key : α → ℚ) (x : α) : List α → List α
  | [] => [x]
  | y :: ys => if key y ≤ key x then x :: y :: ys else y :: insertDescBy key x ys

/-- Stable descending sort by a rational key. -/
def sortDescBy {α : Type} (key : α → ℚ) : List α → List α
  | [] => []
  | x :: xs => insertDescBy key x (sortDescBy key xs)

/-- `np.max` over a (nonempty) score list. -/
def qMax : List ℚ → ℚ
  | [] => 0
  | x :: xs => xs.foldl max x

/-- One per-product aggregate: an entry of the `product_matches` dict of
`search_similar_product`, keyed by `product_url`. -/
structure ProdAgg where
  name : String
  url : String
  price : String
  scores : List ℚ
  bestImage : String
  bestScore : ℚ
  bestIndex : ℕ
deriving DecidableEq, Repr

/-- One entry of the `results` list built by `search_similar_product`. -/
structure SearchResult where
  product_name : String
  product_url : String
  image_url : String
  price : String
  similarity_score : ℚ
  max_score : ℚ
  avg_score : ℚ
  vote_count : ℕ
  best_index : ℕ
deriving DecidableEq, Repr

/-- The body of the `for score, idx` loop acting on one aggregate list:
create the product entry on first sight (with the current hit's metadata
and score), then append the vote and update the best hit when the new
similarity strictly exceeds the stored best. -/
def updAgg (m : Meta) (idx : ℕ) (sim : ℚ) : List ProdAgg → List ProdAgg
  | [] => [⟨m.product_name, m.product_url, m.price, [sim], m.image_url, sim, idx⟩]
  | a :: rest =>
    if a.url = m.product_url then
      (let a2 := { a with scores := a.scores ++ [sim] }
       if a2.bestScore < sim then
         { a2 with bestScore := sim, bestImage := m.image_url, bestIndex := idx }
       else a2) :: rest
    else a :: updAgg m idx sim rest

/-- One iteration of the hit loop of `search_similar_product`: hits whose
slot id fails `idx < len(metadata)` are skipped; otherwise the similarity
is the raw score for an inner-product index, else `1 - l2²/2`. -/
def processHit (metadata : List Meta) (ip : Bool) (aggs : List ProdAgg)
    (hit : ℚ × ℕ) : List ProdAgg :=
  match metadata[hit.2]? with
  | none => aggs
  | some m =>
    let sim := if ip then hit.1 else 1 - hit.1 * hit.1 / 2
    updAgg m hit.2 sim aggs

/-- The `product_matches` dict of `search_similar_product` after the hit
loop, in first-seen (Python dict insertion) order. -/
def productAggregates (metadata : List Meta) (ip : Bool)
    (hits : List (ℚ × ℕ)) : List ProdAgg :=
  hits.foldl (processHit metadata ip) []

/-- The re-ranking computation done per product in the results loop of
`search_similar_product`:
`combined_score = max*0.8 + avg*0.10 + top3_avg*0.10`, then `*= 1.10` when
`vote_count >= 5`, else `*= 1.05` when `vote_count >= 3`. -/
def combined_score (scores : List ℚ) : ℚ :=
  let avg_score := scores.sum / (scores.length : ℚ)
  let max_score := qMax scores
  let top3 := (sortDescBy id scores).take 3
  let top3_avg := top3.sum / (top3.length : ℚ)
  let base := max_score * 0.8 + avg_score * 0.10 + top3_avg * 0.10
  if 5 ≤ scores.length then base * 1.10
  else if 3 ≤ scores.length then base * 1.05
  else base

/-- The result record built from one aggregate in the results loop. -/
def aggToResult (a : ProdAgg) : SearchResult :=
  { product_name := a.name
    product_url := a.url
    image_url := a.bestImage
    price := a.price
    similarity_score := combined_score a.scores
    max_score := qMax a.scores
    avg_score := a.scores.sum / (a.scores.length : ℚ)
    vote_count := a.scores.length
    best_index := a.bestIndex }

/-- `search_similar_product` from `image_identifier_api.py`, with the FAISS
rows passed in as `hits` and the index type collapsed to `ip : Bool`
(whether `'IP'` occurs in the index type name): aggregate hits by product
URL, re-rank, and sort descending by `similarity_score`. -/
def search_similar_product (metadata : List Meta) (ip : Bool)
    (hits : List (ℚ × ℕ)) : List SearchResult :=
  sortDescBy (fun r => r.similarity_score)
    ((productAggregates metadata ip hits).map aggToResult)

/-- One entry of the `top_5_enhanced` list of `search_product`. -/
structure Top5Entry where
  product_name : String
  product_url : String
  price : String
  category : String
  similarity_score : ℚ
  image_url : String
deriving DecidableEq, Repr

/-- The `top_5_enhanced` construction: the first five results, each with a
keyword-derived category. -/
def top5Enhanced (results : List SearchResult) : List Top5Entry :=
  (results.take 5).map (fun r =>
    { product_name := r.product_name
      product_url := r.product_url
      price := r.price
      category := categoryOf r.product_name
      similarity_score := r.similarity_score
      image_url := r.image_url })

/-- The JSON bodies `search_product` can answer with, one constructor per
distinct response shape (`serverError` is the HTTP 500 raised when an
uncaught exception such as a metadata `IndexError` escapes the handler). -/
inductive Response where
  | serverError : Response
  | exactMatch (product_name product_url price category matched_image_url : String)
      (hamming_distance : ℕ) (similarity_score : ℚ) : Response
  | noResults : Response
  | matchFound (confidence product_name product_url price category : String)
      (similarity_score : ℚ) (matched_image_url : String)
      (detected_category : Option String)
      (top_5_results : List Top5Entry) : Response
  | noMatch (similarity_score : ℚ) (top_5_results : List SearchResult) : Response
deriving DecidableEq, Repr

/-- The loaded artifact pair the query engine serves from. -/
structure EngineState where
  metadata : List Meta
  hashIndex : List (ℕ × Hash)
deriving DecidableEq, Repr

/-- Python truthiness of the detected category
(`100 if detected_category else 150`). -/
def pyTruthy : Option String → Bool
  | none => false
  | some s => !(s == "")

/-- `k_value = 100 if detected_category else 150`. -/
def kValue (detected : Option String) : ℕ :=
  if pyTruthy detected then 100 else 150

/-- The Tier-2 ranked results of `search_product`: the embedding-search
oracle queried with `k_value`, fed to `search_similar_product`. -/
def tier2Results (st : EngineState) (detected : Option String)
    (indexSearch : ℕ → List (ℚ × ℕ)) (ip : Bool) : List SearchResult :=
  search_similar_product st.metadata ip (indexSearch (kValue detected))

/-- The `/search` handler `search_product` (after image validation and
hashing): Tier 1 looks up the perceptual hash and, on a hit, answers
`exact_match` from that slot's metadata with `similarity_score` fixed at 1
(an out-of-range slot makes `metadata[match_idx]` raise, surfacing as 500);
otherwise Tier 2 ranks the embedding-search candidates and bands the top
combined score against the three thresholds, answering `no_match` with the
raw top-five list when even the lowest is missed. -/
def searchProduct (st : EngineState) (queryHash : Hash)
    (detected : Option String) (indexSearch : ℕ → List (ℚ × ℕ))
    (ip : Bool) : Response :=
  match find_exact_match_by_hash st.hashIndex queryHash EXACT_MATCH_HASH_THRESHOLD with
  | some (idx, dist) =>
    match st.metadata[idx]? with
    | none => .serverError
    | some m =>
      .exactMatch m.product_name m.product_url m.price (categoryOf m.product_name)
        m.image_url dist 1
  | none =>
    match tier2Results st detected indexSearch ip with
    | [] => .noResults
    | top :: rest =>
      let s := top.similarity_score
      if SIMILARITY_THRESHOLD_HIGH ≤ s then
        .matchFound "HIGH" top.product_name top.product_url top.price
          (categoryOf top.product_name) s top.image_url detected
          (top5Enhanced (top :: rest))
      else if SIMILARITY_THRESHOLD_MEDIUM ≤ s then
        .matchFound "MEDIUM" top.product_name top.product_url top.price
          (categoryOf top.product_name) s top.image_url detected
          (top5Enhanced (top :: rest))
      else if SIMILARITY_THRESHOLD_LOW ≤ s then
        .matchFound "LOW" top.product_name top.product_url top.price
          (categoryOf top.product_name) s top.image_url detected
          (top5Enhanced (top :: rest))
      else
        .noMatch s ((top :: rest).take 5)

/-- Modelled from the spec: the §4.3 re-ranking formula
`combined_score = 0.8 * max_score + 0.10 * avg_score + 0.10 * top3_avg_score`
where `avg_score` is the mean of all votes and `top3_avg_score` the mean of
the top 3 (or fewer) votes sorted descending, then multiplied by 1.10 when
the vote count is at least 5, by 1.05 when at least 3, else unchanged. -/
def specCombined (votes : List ℚ) : ℚ :=
  let max_score := qMax votes
  let avg_score := votes.sum / (votes.length : ℚ)
  let top3 := (sortDescBy id votes).take 3
  let top3_avg := top3.sum / (top3.length : ℚ)
  let base := 0.8 * max_score + 0.10 * avg_score + 0.10 * top3_avg
  if 5 ≤ votes.length then base * 1.10
  else if 3 ≤ votes.length then base * 1.05
  else base

/-- The minimum Hamming distance from `query` to the stored hashes. -/
def minHamming (query : Hash) : List (ℕ × Hash) → ℕ
  | [] => 0
  | [p] => hamming query p.2
  | p :: q :: rest => min (hamming query p.2) (minHamming query (q :: rest))

/-- Modelled from the spec: `find_nearest(query_hash, max_distance)` scans
all stored hashes, computing Hamming distance; it returns the slot with
minimum distance when that minimum is `≤ max_distance`, else none;
ties break to the first slot in insertion order. -/
def find_nearest_spec (hashIndex : List (ℕ × Hash)) (query : Hash)
    (max_distance : ℕ) : Option (ℕ × ℕ) :=
  match hashIndex with
  | [] => none
  | _ =>
    let m := minHamming query hashIndex
    if m ≤ max_distance then
      match hashIndex.find? (fun p => hamming query p.2 == m) with
      | some p => some (p.1, m)
      | none => none
    else none

/-- Proof helper: the first entry within `max_distance` that attains the
running minimum, computed right to left. -/
def bestOf (query : Hash) (max_distance : ℕ) : List (ℕ × Hash) → Option (ℕ × ℕ)
  | [] => none
  | (i, h) :: rest =>
    let d := hamming query h
    match bestOf query max_distance rest with
    | none => if d ≤ max_distance then some (i, d) else none
    | some (j, e) => if d ≤ max_distance ∧ d ≤ e then some (i, d) else some (j, e)

/-- Proof helper: resolve an accumulator against the best of the remaining
entries (which must win strictly to displace the accumulator). -/
def mergeBest : Option (ℕ × ℕ) → Option (ℕ × ℕ) → Option (ℕ × ℕ)
  | none, r => r
  | some b, none => some b
  | some b, some c => if c.2 < b.2 then some c else some b

/-- One image-processing outcome of the indexer: the triple returned by
`download_and_encode_image`, or `none` when the image was skipped (the
source returns `(None, None, None)` on any download, decode, hash or
embedding failure). -/
abbrev ImgRes := Emb × Meta × Hash

/-- The three parallel stores the indexer builds (`self.embeddings`,
`self.metadata`, `self.hash_index`; the dict modelled as its key-value
pairs in insertion order). -/
structure BuildState where
  embeddings : List Emb
  metadata : List Meta
  hash_index : List (ℕ × Hash)
deriving DecidableEq, Repr

/-- The store contents right after `VectorIndexerV2.__init__`. -/
def initState : BuildState := ⟨[], [], []⟩

/-- The per-future body of the `as_completed` loop of `process_products`:
a skipped image changes nothing; a successful one appends the embedding
and metadata and keys the hash by `current_index = len(self.embeddings)`. -/
def addImage (st : BuildState) (r : Option ImgRes) : BuildState :=
  match r with
  | none => st
  | some (e, m, h) =>
    { embeddings := st.embeddings ++ [e]
      metadata := st.metadata ++ [m]
      hash_index := st.hash_index ++ [(st.embeddings.length, h)] }

/-- All future completions of one product, folded in completion order. -/
def process_images (st : BuildState) (imgs : List (Option ImgRes)) : BuildState :=
  imgs.foldl addImage st

/-- `VectorIndexerV2.process_products`: the outer product loop (a product
with no image URLs contributes an empty completion list), each product's
futures folded in completion order.  The completion order is arbitrary, so
every interleaving the executor can produce is an instance of this model. -/
def process_products (st : BuildState) (productImages : List (List (Option ImgRes))) :
    BuildState :=
  productImages.foldl process_images st

/-- The successful outcomes across all products, in processing order. -/
def successfulResults (productImages : List (List (Option ImgRes))) : List ImgRes :=
  productImages.flatten.filterMap id

/-- `VectorIndexerV2.create_faiss_index`: raises (`none`) when no
embeddings exist, else builds an `IndexFlatIP` holding every stored vector.
L2 normalization rescales each vector in place (count-preserving; vector
norms are irrational in general, so the stored list stands for the
normalized index contents). -/
def create_faiss_index (embeddings : List Emb) : Option (List Emb) :=
  if embeddings.isEmpty then none else some embeddings

/-! Helper lemmas about the stable descending sort. -/

theorem mem_insertDescBy {α : Type} (key : α → ℚ) (x a : α) (l : List α) :
    a ∈ insertDescBy key x l ↔ a = x ∨ a ∈ l := by
  induction l with
  | nil => simp [insertDescBy]
  | cons y ys ih =>
    simp only [insertDescBy]
    split
    · simp [or_comm, or_assoc]
    · simp only [List.mem_cons, ih]
      tauto

theorem mem_sortDescBy {α : Type} (key : α → ℚ) (a : α) (l : List α) :
    a ∈ sortDescBy key l ↔ a ∈ l := by
  induction l with
  | nil => simp [sortDescBy]
  | cons y ys ih => simp [sortDescBy, mem_insertDescBy, ih]

/-- The source's inline re-ranking arithmetic agrees with the spec's
formula (the two differ only in multiplication order). -/
theorem combined_eq_spec (votes : List ℚ) :
    combined_score votes = specCombined votes := by
  simp only [combined_score, specCombined]
  split_ifs <;> ring

theorem updAgg_scores_ne_nil (m : Meta) (idx : ℕ) (sim : ℚ) :
    ∀ l : List ProdAgg, (∀ a ∈ l, a.scores ≠ []) →
      ∀ a ∈ updAgg m idx sim l, a.scores ≠ [] := by
  intro l
  induction l with
  | nil =>
    intro _ a ha
    simp only [updAgg, List.mem_singleton] at ha
    subst ha
    simp
  | cons b rest ih =>
    intro hl a ha
    simp only [updAgg] at ha
    split at ha
    · rcases List.mem_cons.mp ha with h | h
      · subst h
        split <;> simp
      · exact hl a (List.mem_cons_of_mem _ h)
    · rcases List.mem_cons.mp ha with h | h
      · subst h
        exact hl a (List.mem_cons_self a rest)
      · exact ih (fun c hc => hl c (List.mem_cons_of_mem _ hc)) a h

theorem foldl_processHit_ne_nil (md : List Meta) (ip : Bool) :
    ∀ (hits : List (ℚ × ℕ)) (acc : List ProdAgg),
      (∀ a ∈ acc, a.scores ≠ []) →
      ∀ a ∈ hits.foldl (processHit md ip) acc, a.scores ≠ [] := by
  intro hits
  induction hits with
  | nil => intro acc hacc a ha; exact hacc a ha
  | cons hit hits ih =>
    intro acc hacc a ha
    simp only [List.foldl_cons] at ha
    refine ih _ ?_ a ha
    intro c hc
    simp only [processHit] at hc
    rcases hmd : md[hit.2]? with _ | m
    · rw [hmd] at hc
      exact hacc c hc
    · rw [hmd] at hc
      exact updAgg_scores_ne_nil _ _ _ acc hacc c hc

theorem productAggregates_scores_ne_nil (md : List Meta) (ip : Bool)
    (hits : List (ℚ × ℕ)) : ∀ a ∈ productAggregates md ip hits, a.scores ≠ [] :=
  foldl_processHit_ne_nil md ip hits [] (by simp)

/-- C1: every product aggregated in Tier 2 has a non-empty vote list, and
its reported `similarity_score` equals the spec's re-ranking formula
`0.8 * max + 0.10 * avg + 0.10 * top3_avg` over exactly its vote list,
scaled by 1.10 for at least 5 votes and by 1.05 for at least 3. -/
theorem tier2_rerank_score_eq_spec (md : List Meta) (ip : Bool)
    (hits : List (ℚ × ℕ)) (r : SearchResult)
    (hr : r ∈ search_similar_product md ip hits) :
    ∃ a ∈ productAggregates md ip hits,
      r = aggToResult a ∧ a.scores ≠ [] ∧ r.similarity_score = specCombined a.scores := by
  simp only [search_similar_product, mem_sortDescBy, List.mem_map] at hr
  obtain ⟨a, ha, rfl⟩ := hr
  exact ⟨a, ha, rfl, productAggregates_scores_ne_nil md ip hits a ha,
    combined_eq_spec a.scores⟩

/-- Witness for C1 at a concrete one-product index. -/
theorem tier2_rerank_score_eq_spec_witness :
    (⟨"Alpha Watch", "uA", "iA", "10", 1/2, 1/2, 1/2, 1, 0⟩ : SearchResult) ∈
        search_similar_product [⟨"Alpha Watch", "uA", "iA", "10"⟩] true [(1/2, 0)] ∧
      ∃ a ∈ productAggregates [⟨"Alpha Watch", "uA", "iA", "10"⟩] true [(1/2, 0)],
        (⟨"Alpha Watch", "uA", "iA", "10", 1/2, 1/2, 1/2, 1, 0⟩ : SearchResult) = aggToResult a ∧
          a.scores ≠ [] ∧
          (⟨"Alpha Watch", "uA", "iA", "10", 1/2, 1/2, 1/2, 1, 0⟩ : SearchResult).similarity_score =
            specCombined a.scores := by
  have hmem : (⟨"Alpha Watch", "uA", "iA", "10", 1/2, 1/2, 1/2, 1, 0⟩ : SearchResult) ∈
      search_similar_product [⟨"Alpha Watch", "uA", "iA", "10"⟩] true [(1/2, 0)] := by
    norm_num [search_similar_product, productAggregates, processHit, updAgg,
      aggToResult, combined_score, sortDescBy, insertDescBy, qMax]
  exact ⟨hmem, tier2_rerank_score_eq_spec _ _ _ _ hmem⟩

/-! Correctness of the hash scan loop against the spec description. -/

theorem findLoop_eq_mergeBest (q : Hash) (md : ℕ) :
    ∀ (l : List (ℕ × Hash)) (best : Option (ℕ × ℕ)),
      (∀ i bd, best = some (i, bd) → bd ≤ md) →
      findLoop q md l best = mergeBest best (bestOf q md l) := by
  intro l
  induction l with
  | nil =>
    intro best hb
    cases best <;> simp [findLoop, bestOf, mergeBest]
  | cons p rest ih =>
    obtain ⟨i, h⟩ := p
    intro best hb
    cases best with
    | none =>
      by_cases hd : hamming q h ≤ md
      · have hstep : findLoop q md ((i, h) :: rest) none =
            findLoop q md rest (some (i, hamming q h)) := by
          simp [findLoop, hd]
        rw [hstep, ih _ (by intro j bd hbd; injection hbd with hbd2; injection hbd2 with h1 h2; omega)]
        cases hrest : bestOf q md rest with
        | none => simp [bestOf, mergeBest, hrest, hd]
        | some c =>
          obtain ⟨j, e⟩ := c
          simp only [bestOf, mergeBest, hrest]
          (try split_ifs) <;> (try simp only [mergeBest]) <;> (try split_ifs) <;>
            first | rfl | omega
      · have hstep : findLoop q md ((i, h) :: rest) none =
            findLoop q md rest none := by
          simp [findLoop, hd]
        rw [hstep, ih _ (by intro j bd hbd; cases hbd)]
        cases hrest : bestOf q md rest with
        | none => simp [bestOf, mergeBest, hrest, hd]
        | some c =>
          obtain ⟨j, e⟩ := c
          simp only [bestOf, mergeBest, hrest]
          (try split_ifs) <;> (try simp only [mergeBest]) <;> (try split_ifs) <;>
            first | rfl | omega
    | some b =>
      obtain ⟨k, bd⟩ := b
      have hbd : bd ≤ md := hb k bd rfl
      by_cases hd : hamming q h ≤ md
      · by_cases hdb : hamming q h < bd
        · have hstep : findLoop q md ((i, h) :: rest) (some (k, bd)) =
              findLoop q md rest (some (i, hamming q h)) := by
            simp [findLoop, hd, hdb]
          rw [hstep, ih _ (by intro j bd2 hbd2; injection hbd2 with hx; injection hx with h1 h2; omega)]
          cases hrest : bestOf q md rest with
          | none =>
            simp only [bestOf, mergeBest, hrest]
            (try split_ifs) <;> (try simp only [mergeBest]) <;> (try split_ifs) <;>
            first | rfl | omega
          | some c =>
            obtain ⟨j, e⟩ := c
            simp only [bestOf, mergeBest, hrest]
            (try split_ifs) <;> (try simp only [mergeBest]) <;> (try split_ifs) <;>
            first | rfl | omega
        · have hstep : findLoop q md ((i, h) :: rest) (some (k, bd)) =
              findLoop q md rest (some (k, bd)) := by
            simp [findLoop, hd, hdb]
          rw [hstep, ih _ hb]
          cases hrest : bestOf q md rest with
          | none =>
            simp only [bestOf, mergeBest, hrest]
            (try split_ifs) <;> (try simp only [mergeBest]) <;> (try split_ifs) <;>
            first | rfl | omega
          | some c =>
            obtain ⟨j, e⟩ := c
            simp only [bestOf, mergeBest, hrest]
            (try split_ifs) <;> (try simp only [mergeBest]) <;> (try split_ifs) <;>
            first | rfl | omega
      · have hstep : findLoop q md ((i, h) :: rest) (some (k, bd)) =
            findLoop q md rest (some (k, bd)) := by
          simp [findLoop, hd]
        rw [hstep, ih _ hb]
        cases hrest : bestOf q md rest with
        | none =>
          simp only [bestOf, mergeBest, hrest]
          (try split_ifs) <;> (try simp only [mergeBest]) <;> (try split_ifs) <;>
            first | rfl | omega
        | some c =>
          obtain ⟨j, e⟩ := c
          simp only [bestOf, mergeBest, hrest]
          (try split_ifs) <;> (try simp only [mergeBest]) <;> (try split_ifs) <;>
            first | rfl | omega

theorem bestOf_cons_none (q : Hash) (md : ℕ) (p : ℕ × Hash)
    (rest : List (ℕ × Hash)) (h : bestOf q md rest = none) :
    bestOf q md (p :: rest) =
      if hamming q p.2 ≤ md then some (p.1, hamming q p.2) else none := by
  obtain ⟨i, hh⟩ := p
  simp only [bestOf, h]

theorem bestOf_cons_some (q : Hash) (md : ℕ) (p : ℕ × Hash)
    (rest : List (ℕ × Hash)) (c : ℕ × ℕ) (h : bestOf q md rest = some c) :
    bestOf q md (p :: rest) =
      if hamming q p.2 ≤ md ∧ hamming q p.2 ≤ c.2 then
        some (p.1, hamming q p.2)
      else some c := by
  obtain ⟨i, hh⟩ := p
  obtain ⟨j, e⟩ := c
  simp only [bestOf, h]

theorem minHamming_attained (q : Hash) :
    ∀ l : List (ℕ × Hash), l ≠ [] → ∃ p ∈ l, hamming q p.2 = minHamming q l := by
  intro l
  induction l with
  | nil => intro h; exact absurd rfl h
  | cons p R ih =>
    intro _
    cases R with
    | nil => exact ⟨p, by simp, by simp [minHamming]⟩
    | cons p2 R2 =>
      obtain ⟨pr, hmem, hd⟩ := ih (by simp)
      by_cases hle : hamming q p.2 ≤ minHamming q (p2 :: R2)
      · refine ⟨p, by simp, ?_⟩
        simp only [minHamming]
        omega
      · refine ⟨pr, List.mem_cons_of_mem _ hmem, ?_⟩
        simp only [minHamming]
        omega

theorem bestOf_eq_spec (q : Hash) (md : ℕ) :
    ∀ l : List (ℕ × Hash), l ≠ [] → bestOf q md l = find_nearest_spec l q md := by
  intro l
  induction l with
  | nil => intro h; exact absurd rfl h
  | cons p R ih =>
    intro _
    cases R with
    | nil =>
      by_cases hd : hamming q p.2 ≤ md
      · simp [bestOf, find_nearest_spec, minHamming, hd]
      · simp [bestOf, find_nearest_spec, minHamming, hd]
    | cons p2 R2 =>
      have hIH := ih (by simp)
      by_cases hm : minHamming q (p2 :: R2) ≤ md
      · obtain ⟨pr, hprmem, hprd⟩ := minHamming_attained q (p2 :: R2) (by simp)
        have hfindsome : (List.find?
            (fun x => hamming q x.2 == minHamming q (p2 :: R2)) (p2 :: R2)).isSome := by
          rw [List.find?_isSome]
          exact ⟨pr, hprmem, by simp [hprd]⟩
        obtain ⟨pf, hfind⟩ := Option.isSome_iff_exists.mp hfindsome
        have hpfd : hamming q pf.2 = minHamming q (p2 :: R2) := by
          have := List.find?_some hfind
          simpa using this
        have hbR : bestOf q md (p2 :: R2) = some (pf.1, minHamming q (p2 :: R2)) := by
          rw [hIH]
          simp only [find_nearest_spec]
          rw [if_pos hm, hfind]
        by_cases hdm : hamming q p.2 ≤ minHamming q (p2 :: R2)
        · have hL : bestOf q md (p :: p2 :: R2) = some (p.1, hamming q p.2) := by
            rw [bestOf_cons_some q md p _ _ hbR]
            exact if_pos ⟨le_trans hdm hm, hdm⟩
          have hmin : minHamming q (p :: p2 :: R2) = hamming q p.2 := by
            simp only [minHamming]
            omega
          have hspec : find_nearest_spec (p :: p2 :: R2) q md = some (p.1, hamming q p.2) := by
            simp only [find_nearest_spec, hmin]
            rw [if_pos (le_trans hdm hm), List.find?_cons_of_pos _ (by simp)]
          rw [hL, hspec]
        · have hL : bestOf q md (p :: p2 :: R2) =
              some (pf.1, minHamming q (p2 :: R2)) := by
            rw [bestOf_cons_some q md p _ _ hbR]
            exact if_neg (by tauto)
          have hmin : minHamming q (p :: p2 :: R2) = minHamming q (p2 :: R2) := by
            simp only [minHamming]
            omega
          have hspec : find_nearest_spec (p :: p2 :: R2) q md =
              some (pf.1, minHamming q (p2 :: R2)) := by
            simp only [find_nearest_spec, hmin]
            rw [if_pos hm, List.find?_cons_of_neg _ (by simp; omega), hfind]
          rw [hL, hspec]
      · have hbR : bestOf q md (p2 :: R2) = none := by
          rw [hIH]
          simp only [find_nearest_spec]
          rw [if_neg hm]
        by_cases hd : hamming q p.2 ≤ md
        · have hL : bestOf q md (p :: p2 :: R2) = some (p.1, hamming q p.2) := by
            rw [bestOf_cons_none q md p _ hbR]
            exact if_pos hd
          have hmin : minHamming q (p :: p2 :: R2) = hamming q p.2 := by
            simp only [minHamming]
            omega
          have hspec : find_nearest_spec (p :: p2 :: R2) q md = some (p.1, hamming q p.2) := by
            simp only [find_nearest_spec, hmin]
            rw [if_pos hd, List.find?_cons_of_pos _ (by simp)]
          rw [hL, hspec]
        · have hL : bestOf q md (p :: p2 :: R2) = none := by
            rw [bestOf_cons_none q md p _ hbR]
            exact if_neg hd
          have hspec : find_nearest_spec (p :: p2 :: R2) q md = none := by
            simp only [find_nearest_spec, minHamming]
            rw [if_neg (by omega)]
          rw [hL, hspec]

/-- C3: on every non-empty hash index, `find_exact_match_by_hash` computes
exactly the spec's `find_nearest`: the slot of minimum Hamming distance
paired with that minimum when it is within `max_distance`, `none`
otherwise, ties broken to the first slot in insertion order (and, being a
pure function of the index, deterministically so). -/
theorem find_exact_match_eq_find_nearest_spec (hi : List (ℕ × Hash)) (q : Hash)
    (md : ℕ) (hne : hi ≠ []) :
    find_exact_match_by_hash hi q md = find_nearest_spec hi q md := by
  unfold find_exact_match_by_hash
  rw [if_neg (by simpa [List.isEmpty_iff] using hne)]
  rw [findLoop_eq_mergeBest q md hi none (fun i bd h => by cases h)]
  have hmerge : mergeBest none (bestOf q md hi) = bestOf q md hi := by
    simp [mergeBest]
  rw [hmerge, bestOf_eq_spec q md hi hne]

/-- Witness for C3 on a concrete three-entry index. -/
theorem find_exact_match_eq_find_nearest_spec_witness :
    ([(0, [true, true]), (1, [true, false]), (2, [false, false])] : List (ℕ × Hash)) ≠ [] ∧
      find_exact_match_by_hash
          [(0, [true, true]), (1, [true, false]), (2, [false, false])]
          [false, false] 5 =
        find_nearest_spec
          [(0, [true, true]), (1, [true, false]), (2, [false, false])]
          [false, false] 5 ∧
      find_exact_match_by_hash
          [(0, [true, true]), (1, [true, false]), (2, [false, false])]
          [false, false] 5 = some (2, 0) :=
  ⟨by decide, find_exact_match_eq_find_nearest_spec _ _ _ (by decide), by decide⟩

/-- C2: whenever Tier 1 finds a stored hash within
`EXACT_MATCH_HASH_THRESHOLD` and that slot resolves in the metadata store,
the engine answers `exact_match` with that slot's name, URL, price,
keyword-derived category, matched image URL and the fixed maximal
`similarity_score` 1 — and the answer is independent of the embedding
search oracle and index type, so no embedding search result is ever
consulted (Tier 1 short-circuits Tier 2). -/
theorem tier1_exact_match_short_circuits (st : EngineState) (qh : Hash)
    (detected detected2 : Option String) (isrch isrch2 : ℕ → List (ℚ × ℕ))
    (ip ip2 : Bool) (idx d : ℕ) (m : Meta)
    (hfind : find_exact_match_by_hash st.hashIndex qh EXACT_MATCH_HASH_THRESHOLD =
      some (idx, d))
    (hmeta : st.metadata[idx]? = some m) :
    searchProduct st qh detected isrch ip =
        Response.exactMatch m.product_name m.product_url m.price
          (categoryOf m.product_name) m.image_url d 1 ∧
      searchProduct st qh detected isrch ip = searchProduct st qh detected2 isrch2 ip2 := by
  constructor
  · simp [searchProduct, hfind, hmeta]
  · simp [searchProduct, hfind, hmeta]

/-- Witness for C2 on a concrete one-slot index queried with its own hash. -/
theorem tier1_exact_match_short_circuits_witness :
    find_exact_match_by_hash [(0, [true, true])] [true, true] EXACT_MATCH_HASH_THRESHOLD =
        some (0, 0) ∧
      ([⟨"Omega Watch", "uO", "iO", "99"⟩] : List Meta)[0]? =
        some ⟨"Omega Watch", "uO", "iO", "99"⟩ ∧
      searchProduct ⟨[⟨"Omega Watch", "uO", "iO", "99"⟩], [(0, [true, true])]⟩
          [true, true] none (fun _ => [(0.9, 0)]) true =
        Response.exactMatch "Omega Watch" "uO" "99" "watch" "iO" 0 1 :=
  ⟨by decide, by decide,
    (tier1_exact_match_short_circuits ⟨[⟨"Omega Watch", "uO", "iO", "99"⟩], [(0, [true, true])]⟩
      [true, true] none none (fun _ => [(0.9, 0)]) (fun _ => []) true true 0 0
      ⟨"Omega Watch", "uO", "iO", "99"⟩ (by decide) (by decide)).1.trans
      (by have hc : categoryOf "Omega Watch" = "watch" := by decide
          rw [hc])⟩

/-- C9: the detected category reaches Tier 2 only through
`k = 100 if detected else 150`; the candidate rows returned by the
embedding search are fed to the per-product aggregation unfiltered, so any
two detection outcomes with equal truthiness yield identical ranked
results. -/
theorem category_only_affects_k (st : EngineState) (detected : Option String)
    (isrch : ℕ → List (ℚ × ℕ)) (ip : Bool) :
    tier2Results st detected isrch ip =
        search_similar_product st.metadata ip
          (isrch (if pyTruthy detected then 100 else 150)) ∧
      ∀ detected2, pyTruthy detected2 = pyTruthy detected →
        tier2Results st detected2 isrch ip = tier2Results st detected isrch ip := by
  refine ⟨rfl, ?_⟩
  intro d2 h
  simp [tier2Results, kValue, h]

/-- Witness for C9: two distinct detected categories, same truthiness. -/
theorem category_only_affects_k_witness :
    pyTruthy (some "bag") = pyTruthy (some "watch") ∧
      tier2Results ⟨[], []⟩ (some "bag") (fun _ => []) true =
        tier2Results ⟨[], []⟩ (some "watch") (fun _ => []) true :=
  ⟨by decide,
    (category_only_affects_k ⟨[], []⟩ (some "watch") (fun _ => []) true).2
      (some "bag") (by decide)⟩

/-- C8: with Tier 1 missing and a non-empty Tier-2 ranking, a top combined
score exactly at `SIMILARITY_THRESHOLD_LOW` is answered `match_found` with
confidence LOW, while any top score strictly below the threshold is
answered `no_match` still carrying the top-five list. -/
theorem low_threshold_boundary (st : EngineState) (qh : Hash)
    (detected : Option String) (isrch : ℕ → List (ℚ × ℕ)) (ip : Bool)
    (r : SearchResult) (rest : List SearchResult)
    (hfind : find_exact_match_by_hash st.hashIndex qh EXACT_MATCH_HASH_THRESHOLD = none)
    (hres : tier2Results st detected isrch ip = r :: rest) :
    (r.similarity_score = SIMILARITY_THRESHOLD_LOW →
      searchProduct st qh detected isrch ip =
        Response.matchFound "LOW" r.product_name r.product_url r.price
          (categoryOf r.product_name) r.similarity_score r.image_url detected
          (top5Enhanced (r :: rest))) ∧
    (r.similarity_score < SIMILARITY_THRESHOLD_LOW →
      searchProduct st qh detected isrch ip =
        Response.noMatch r.similarity_score ((r :: rest).take 5)) := by
  constructor
  · intro heq
    have h1 : ¬ SIMILARITY_THRESHOLD_HIGH ≤ r.similarity_score := by
      rw [heq]
      norm_num [SIMILARITY_THRESHOLD_HIGH, SIMILARITY_THRESHOLD_LOW]
    have h2 : ¬ SIMILARITY_THRESHOLD_MEDIUM ≤ r.similarity_score := by
      rw [heq]
      norm_num [SIMILARITY_THRESHOLD_MEDIUM, SIMILARITY_THRESHOLD_LOW]
    have h3 : SIMILARITY_THRESHOLD_LOW ≤ r.similarity_score := le_of_eq heq.symm
    simp [searchProduct, hfind, hres, h1, h2, h3]
  · intro hlt
    have h1 : ¬ SIMILARITY_THRESHOLD_HIGH ≤ r.similarity_score := by
      simp only [SIMILARITY_THRESHOLD_LOW] at hlt
      simp only [SIMILARITY_THRESHOLD_HIGH]
      intro hc
      norm_num at hlt hc
      linarith
    have h2 : ¬ SIMILARITY_THRESHOLD_MEDIUM ≤ r.similarity_score := by
      simp only [SIMILARITY_THRESHOLD_LOW] at hlt
      simp only [SIMILARITY_THRESHOLD_MEDIUM]
      intro hc
      norm_num at hlt hc
      linarith
    have h3 : ¬ SIMILARITY_THRESHOLD_LOW ≤ r.similarity_score := not_le.mpr hlt
    simp [searchProduct, hfind, hres, h1, h2, h3]

/-- Witness for C8: a single 0.62-vote product sits exactly at the LOW
threshold and is answered `match_found`/LOW. -/
theorem low_threshold_boundary_witness :
    find_exact_match_by_hash ([] : List (ℕ × Hash)) [] EXACT_MATCH_HASH_THRESHOLD = none ∧
      tier2Results ⟨[⟨"Zeta Watch", "u", "i", "5"⟩], []⟩ none
          (fun _ => [(0.62, 0)]) true =
        [⟨"Zeta Watch", "u", "i", "5", 0.62, 0.62, 0.62, 1, 0⟩] ∧
      (⟨"Zeta Watch", "u", "i", "5", 0.62, 0.62, 0.62, 1, 0⟩ : SearchResult).similarity_score =
        SIMILARITY_THRESHOLD_LOW ∧
      searchProduct ⟨[⟨"Zeta Watch", "u", "i", "5"⟩], []⟩ [] none
          (fun _ => [(0.62, 0)]) true =
        Response.matchFound "LOW" "Zeta Watch" "u" "5" "watch" 0.62 "i" none
          [⟨"Zeta Watch", "u", "5", "watch", 0.62, "i"⟩] := by
  have hfind : find_exact_match_by_hash ([] : List (ℕ × Hash)) []
      EXACT_MATCH_HASH_THRESHOLD = none := by decide
  have hres : tier2Results ⟨[⟨"Zeta Watch", "u", "i", "5"⟩], []⟩ none
      (fun _ => [(0.62, 0)]) true =
      [⟨"Zeta Watch", "u", "i", "5", 0.62, 0.62, 0.62, 1, 0⟩] := by
    norm_num [tier2Results, kValue, pyTruthy, search_similar_product,
      productAggregates, processHit, updAgg, aggToResult, combined_score,
      sortDescBy, insertDescBy, qMax]
  have heq : (⟨"Zeta Watch", "u", "i", "5", 0.62, 0.62, 0.62, 1, 0⟩ :
      SearchResult).similarity_score = SIMILARITY_THRESHOLD_LOW := by
    norm_num [SIMILARITY_THRESHOLD_LOW]
  refine ⟨hfind, hres, heq, ?_⟩
  have happ := (low_threshold_boundary ⟨[⟨"Zeta Watch", "u", "i", "5"⟩], []⟩ []
    none (fun _ => [(0.62, 0)]) true _ _ hfind hres).1 heq
  rw [happ]
  have hc : categoryOf "Zeta Watch" = "watch" := by decide
  norm_num [hc, top5Enhanced]

/-! Handling of out-of-range slot ids (C4). -/

theorem search_oob_filter (md : List Meta) (ip : Bool) :
    ∀ (hits : List (ℚ × ℕ)) (acc : List ProdAgg),
      hits.foldl (processHit md ip) acc =
        (hits.filter (fun h => h.2 < md.length)).foldl (processHit md ip) acc := by
  intro hits
  induction hits with
  | nil => intro acc; rfl
  | cons hit hits ih =>
    intro acc
    by_cases hlt : hit.2 < md.length
    · rw [List.filter_cons_of_pos (by simpa using hlt)]
      simp only [List.foldl_cons]
      exact ih _
    · rw [List.filter_cons_of_neg (by simpa using hlt)]
      simp only [List.foldl_cons]
      have hnone : md[hit.2]? = none := List.getElem?_eq_none (by omega)
      have hskip : processHit md ip acc hit = acc := by
        simp [processHit, hnone]
      rw [hskip]
      exact ih acc

/-- C4 counterexample: a Tier-2 hit resolves slot 5 with only one metadata
record, yet the engine still serves a `match_found` result from the
remaining in-bounds slot instead of refusing. -/
theorem tier2_oob_slot_still_serves :
    ([⟨"Alpha Watch", "uA", "iA", "10"⟩] : List Meta).length = 1 ∧
      ([⟨"Alpha Watch", "uA", "iA", "10"⟩] : List Meta).length ≤ 5 ∧
      searchProduct ⟨[⟨"Alpha Watch", "uA", "iA", "10"⟩], []⟩ [] none
          (fun _ => [(0.9, 5), (0.7, 0)]) true =
        Response.matchFound "LOW" "Alpha Watch" "uA" "10" "watch" 0.7 "iA" none
          [⟨"Alpha Watch", "uA", "10", "watch", 0.7, "iA"⟩] := by
  refine ⟨rfl, by norm_num, ?_⟩
  have hc : categoryOf "Alpha Watch" = "watch" := by decide
  norm_num [searchProduct, find_exact_match_by_hash, tier2Results, kValue, pyTruthy,
    search_similar_product, productAggregates, processHit, updAgg,
    aggToResult, combined_score, sortDescBy, insertDescBy, qMax,
    top5Enhanced, hc,
    SIMILARITY_THRESHOLD_HIGH, SIMILARITY_THRESHOLD_MEDIUM, SIMILARITY_THRESHOLD_LOW]

/-- C4 amended: a Tier-1 hit on a slot missing from the metadata store
raises (an HTTP 500, i.e. the engine refuses), while Tier-2 candidate rows
whose slot id is out of range are silently dropped from aggregation — the
engine never aggregates an out-of-range slot, but it serves results from
the in-bounds rows rather than refusing. -/
theorem oob_slot_handling_amended :
    (∀ (st : EngineState) (qh : Hash) (detected : Option String)
        (isrch : ℕ → List (ℚ × ℕ)) (ip : Bool) (idx d : ℕ),
      find_exact_match_by_hash st.hashIndex qh EXACT_MATCH_HASH_THRESHOLD = some (idx, d) →
      st.metadata[idx]? = none →
      searchProduct st qh detected isrch ip = Response.serverError) ∧
    (∀ (md : List Meta) (ip : Bool) (hits : List (ℚ × ℕ)),
      search_similar_product md ip hits =
        search_similar_product md ip (hits.filter (fun h => h.2 < md.length))) := by
  constructor
  · intro st qh detected isrch ip idx d hfind hnone
    simp [searchProduct, hfind, hnone]
  · intro md ip hits
    simp only [search_similar_product, productAggregates]
    rw [search_oob_filter]

/-- Witness for the amended C4 on concrete mismatched artifacts. -/
theorem oob_slot_handling_amended_witness :
    find_exact_match_by_hash [(3, [true])] [true] EXACT_MATCH_HASH_THRESHOLD =
        some (3, 0) ∧
      ([⟨"A", "u", "i", "p"⟩] : List Meta)[3]? = none ∧
      searchProduct ⟨[⟨"A", "u", "i", "p"⟩], [(3, [true])]⟩ [true] none
          (fun _ => []) true = Response.serverError ∧
      search_similar_product [⟨"A", "u", "i", "p"⟩] true [(0.9, 7)] =
        search_similar_product [⟨"A", "u", "i", "p"⟩] true
          ([(0.9, 7)].filter (fun h =>
            h.2 < ([⟨"A", "u", "i", "p"⟩] : List Meta).length)) :=
  ⟨by decide, by decide,
    oob_slot_handling_amended.1 ⟨[⟨"A", "u", "i", "p"⟩], [(3, [true])]⟩ [true]
      none (fun _ => []) true 3 0 (by decide) (by decide),
    oob_slot_handling_amended.2 [⟨"A", "u", "i", "p"⟩] true [(0.9, 7)]⟩

/-! Arithmetic facts about the re-ranking formula. -/

theorem length_insertDescBy {α : Type} (key : α → ℚ) (x : α) :
    ∀ l : List α, (insertDescBy key x l).length = l.length + 1 := by
  intro l
  induction l with
  | nil => rfl
  | cons y ys ih =>
    simp only [insertDescBy]
    split
    · rfl
    · simp [ih]

theorem length_sortDescBy {α : Type} (key : α → ℚ) :
    ∀ l : List α, (sortDescBy key l).length = l.length := by
  intro l
  induction l with
  | nil => rfl
  | cons y ys ih => simp [sortDescBy, length_insertDescBy, ih]

theorem le_foldl_max : ∀ (l : List ℚ) (b : ℚ), b ≤ l.foldl max b := by
  intro l
  induction l with
  | nil => intro b; simp
  | cons a as ih =>
    intro b
    simp only [List.foldl_cons]
    exact le_trans (le_max_left b a) (ih (max b a))

theorem mem_le_foldl_max : ∀ (l : List ℚ) (b x : ℚ), x ∈ l → x ≤ l.foldl max b := by
  intro l
  induction l with
  | nil => intro b x hx; cases hx
  | cons a as ih =>
    intro b x hx
    simp only [List.foldl_cons]
    rcases List.mem_cons.mp hx with h | h
    · subst h
      exact le_trans (le_max_right b x) (le_foldl_max as (max b x))
    · exact ih (max b a) x h

theorem le_qMax (l : List ℚ) (x : ℚ) (hx : x ∈ l) : x ≤ qMax l := by
  cases l with
  | nil => cases hx
  | cons a as =>
    simp only [qMax]
    rcases List.mem_cons.mp hx with h | h
    · subst h
      exact le_foldl_max as x
    · exact mem_le_foldl_max as a x h

theorem foldl_max_const (m : ℚ) : ∀ l : List ℚ, (∀ x ∈ l, x = m) → l.foldl max m = m := by
  intro l
  induction l with
  | nil => intro _; rfl
  | cons a as ih =>
    intro h
    have ha : a = m := h a (List.mem_cons_self a as)
    simp only [List.foldl_cons, ha, max_self]
    exact ih (fun x hx => h x (List.mem_cons_of_mem _ hx))

theorem qMax_const (l : List ℚ) (m : ℚ) (hne : l ≠ []) (h : ∀ x ∈ l, x = m) :
    qMax l = m := by
  cases l with
  | nil => exact absurd rfl hne
  | cons a as =>
    have ha : a = m := h a (List.mem_cons_self a as)
    simp only [qMax, ha]
    exact foldl_max_const m as (fun x hx => h x (List.mem_cons_of_mem _ hx))

theorem sum_const (l : List ℚ) (m : ℚ) (h : ∀ x ∈ l, x = m) :
    l.sum = l.length * m := by
  induction l with
  | nil => simp
  | cons a as ih =>
    have ha : a = m := h a (List.mem_cons_self a as)
    have := ih (fun x hx => h x (List.mem_cons_of_mem _ hx))
    simp only [List.sum_cons, List.length_cons, this, ha]
    push_cast
    ring

theorem sum_le_const (l : List ℚ) (m : ℚ) (h : ∀ x ∈ l, x ≤ m) :
    l.sum ≤ l.length * m := by
  induction l with
  | nil => simp
  | cons a as ih =>
    have ha : a ≤ m := h a (List.mem_cons_self a as)
    have := ih (fun x hx => h x (List.mem_cons_of_mem _ hx))
    simp only [List.sum_cons, List.length_cons]
    push_cast
    linarith

/-- The re-ranking score of a product all of whose votes equal `m`. -/
theorem combined_const (votes : List ℚ) (m : ℚ) (hne : votes ≠ [])
    (h : ∀ v ∈ votes, v = m) :
    combined_score votes =
      if 5 ≤ votes.length then m * 1.10
      else if 3 ≤ votes.length then m * 1.05 else m := by
  have hlen : votes.length ≠ 0 := fun hl => hne (List.length_eq_zero.mp hl)
  have hlenq : (votes.length : ℚ) ≠ 0 := Nat.cast_ne_zero.mpr hlen
  have hmax : qMax votes = m := qMax_const votes m hne h
  have hsum : votes.sum = votes.length * m := sum_const votes m h
  have havg : votes.sum / (votes.length : ℚ) = m := by
    rw [hsum, mul_comm, mul_div_assoc, div_self hlenq, mul_one]
  have ht3mem : ∀ v ∈ (sortDescBy id votes).take 3, v = m := fun v hv =>
    h v ((mem_sortDescBy id v votes).mp (List.mem_of_mem_take hv))
  have ht3lenq : (((sortDescBy id votes).take 3).length : ℚ) ≠ 0 := by
    have hl := List.length_take 3 (sortDescBy id votes)
    rw [length_sortDescBy] at hl
    have : ((sortDescBy id votes).take 3).length ≠ 0 := by
      rw [hl]
      omega
    exact Nat.cast_ne_zero.mpr this
  have ht3sum : ((sortDescBy id votes).take 3).sum =
      ((sortDescBy id votes).take 3).length * m :=
    sum_const _ m ht3mem
  have ht3avg : ((sortDescBy id votes).take 3).sum /
      (((sortDescBy id votes).take 3).length : ℚ) = m := by
    rw [ht3sum, mul_comm, mul_div_assoc, div_self ht3lenq, mul_one]
  simp only [combined_score, hmax, havg, ht3avg]
  have hbase : m * 0.8 + m * 0.10 + m * 0.10 = m := by ring
  rw [hbase]

/-- Without the vote bonus (fewer than 3 votes), the re-ranking score is
bounded by the maximum vote. -/
theorem combined_le_max (votes : List ℚ) (m : ℚ) (hne : votes ≠ [])
    (hmax : qMax votes = m) (h3 : votes.length < 3) :
    combined_score votes ≤ m := by
  have hle : ∀ v ∈ votes, v ≤ m := fun v hv => hmax ▸ le_qMax votes v hv
  have hlen : votes.length ≠ 0 := fun hl => hne (List.length_eq_zero.mp hl)
  have hlenq : (0 : ℚ) < (votes.length : ℚ) := by
    exact_mod_cast Nat.pos_of_ne_zero hlen
  have havg : votes.sum / (votes.length : ℚ) ≤ m := by
    rw [div_le_iff₀ hlenq]
    have := sum_le_const votes m hle
    linarith [this]
  have ht3mem : ∀ v ∈ (sortDescBy id votes).take 3, v ≤ m := fun v hv =>
    hle v ((mem_sortDescBy id v votes).mp (List.mem_of_mem_take hv))
  have ht3len : ((sortDescBy id votes).take 3).length ≠ 0 := by
    have hl := List.length_take 3 (sortDescBy id votes)
    rw [length_sortDescBy] at hl
    rw [hl]
    omega
  have ht3lenq : (0 : ℚ) < (((sortDescBy id votes).take 3).length : ℚ) := by
    exact_mod_cast Nat.pos_of_ne_zero ht3len
  have ht3avg : ((sortDescBy id votes).take 3).sum /
      (((sortDescBy id votes).take 3).length : ℚ) ≤ m := by
    rw [div_le_iff₀ ht3lenq]
    have := sum_le_const _ m ht3mem
    linarith [this]
  simp only [combined_score]
  rw [if_neg (by omega), if_neg (by omega)]
  have hqle : qMax votes ≤ m := le_of_eq hmax
  nlinarith [havg, ht3avg, hqle]

/-- C6 counterexample: two aggregated products share `max_score = 0.9`;
the one with 5 votes (but low extras) scores 0.8448, strictly below the
single-vote product's 0.9, so vote count alone does not force a higher
combined score. -/
theorem more_votes_not_always_higher :
    search_similar_product
        [⟨"P Watch", "uP", "iP0", "1"⟩, ⟨"P Watch", "uP", "iP1", "1"⟩,
         ⟨"P Watch", "uP", "iP2", "1"⟩, ⟨"P Watch", "uP", "iP3", "1"⟩,
         ⟨"P Watch", "uP", "iP4", "1"⟩, ⟨"Q Watch", "uQ", "iQ", "1"⟩]
        true [(0.9, 0), (0, 1), (0, 2), (0, 3), (0, 4), (0.9, 5)] =
      [⟨"Q Watch", "uQ", "iQ", "1", 9/10, 9/10, 9/10, 1, 5⟩,
       ⟨"P Watch", "uP", "iP0", "1", 528/625, 9/10, 9/50, 5, 0⟩] ∧
    (⟨"P Watch", "uP", "iP0", "1", 528/625, 9/10, 9/50, 5, 0⟩ :
        SearchResult).max_score =
      (⟨"Q Watch", "uQ", "iQ", "1", 9/10, 9/10, 9/10, 1, 5⟩ :
        SearchResult).max_score ∧
    5 ≤ (⟨"P Watch", "uP", "iP0", "1", 528/625, 9/10, 9/50, 5, 0⟩ :
        SearchResult).vote_count ∧
    (⟨"Q Watch", "uQ", "iQ", "1", 9/10, 9/10, 9/10, 1, 5⟩ :
        SearchResult).vote_count < 3 ∧
    (⟨"P Watch", "uP", "iP0", "1", 528/625, 9/10, 9/50, 5, 0⟩ :
        SearchResult).similarity_score <
      (⟨"Q Watch", "uQ", "iQ", "1", 9/10, 9/10, 9/10, 1, 5⟩ :
        SearchResult).similarity_score := by
  refine ⟨?_, rfl, by norm_num, by norm_num, by norm_num⟩
  norm_num [search_similar_product, productAggregates, processHit, updAgg,
    aggToResult, combined_score, sortDescBy, insertDescBy, qMax]

/-- C6 amended: with identical positive `max_score`, a product whose at
least 5 votes all equal that maximum beats any product with fewer than 3
votes: the former scores `1.1 * max`, the latter at most `max`. -/
theorem vote_bonus_monotone_amended (m : ℚ) (vp vq : List ℚ) (hm : 0 < m)
    (hp5 : 5 ≤ vp.length) (hpc : ∀ v ∈ vp, v = m)
    (hqne : vq ≠ []) (hq3 : vq.length < 3) (hqmax : qMax vq = m) :
    combined_score vq < combined_score vp := by
  have hpne : vp ≠ [] := by
    intro hnil
    rw [hnil] at hp5
    simp at hp5
  have hvp : combined_score vp = m * 1.10 := by
    rw [combined_const vp m hpne hpc, if_pos hp5]
  have hvq : combined_score vq ≤ m := combined_le_max vq m hqne hqmax hq3
  rw [hvp]
  nlinarith [hvq, hm]

/-- Witness for the amended C6. -/
theorem vote_bonus_monotone_amended_witness :
    (0 : ℚ) < 9/10 ∧
      5 ≤ ([9/10, 9/10, 9/10, 9/10, 9/10] : List ℚ).length ∧
      ([9/10] : List ℚ).length < 3 ∧
      qMax [9/10] = 9/10 ∧
      combined_score [9/10] < combined_score [9/10, 9/10, 9/10, 9/10, 9/10] :=
  ⟨by norm_num, by norm_num, by norm_num, by norm_num [qMax],
    vote_bonus_monotone_amended (9/10) [9/10, 9/10, 9/10, 9/10, 9/10] [9/10]
      (by norm_num) (by norm_num) (by intro v hv; simpa using hv)
      (by simp) (by norm_num) (by norm_num [qMax])⟩

/-- C10: a product voted at least 5 times, always at similarity `s`, gets
`combined_score = 1.1 * s`; concretely, five 0.95 hits on one product make
the engine answer `match_found` with `similarity_score = 1.045 > 1`, above
the fixed 1.0 marker that `exact_match` responses carry. -/
theorem combined_score_can_exceed_one (s : ℚ) (n : ℕ) (h5 : 5 ≤ n) :
    combined_score (List.replicate n s) = 1.10 * s ∧
      searchProduct
          ⟨[⟨"Delta Watch", "uD", "iD0", "7"⟩, ⟨"Delta Watch", "uD", "iD1", "7"⟩,
            ⟨"Delta Watch", "uD", "iD2", "7"⟩, ⟨"Delta Watch", "uD", "iD3", "7"⟩,
            ⟨"Delta Watch", "uD", "iD4", "7"⟩], []⟩ [] none
          (fun _ => [(0.95, 0), (0.95, 1), (0.95, 2), (0.95, 3), (0.95, 4)]) true =
        Response.matchFound "HIGH" "Delta Watch" "uD" "7" "watch" (209/200) "iD0"
          none [⟨"Delta Watch", "uD", "7", "watch", 209/200, "iD0"⟩] ∧
      (1 : ℚ) < 209/200 := by
  refine ⟨?_, ?_, by norm_num⟩
  · have hne : (List.replicate n s) ≠ [] := by
      intro hnil
      have := congrArg List.length hnil
      simp at this
      omega
    have hall : ∀ v ∈ List.replicate n s, v = s := fun v hv =>
      List.eq_of_mem_replicate hv
    rw [combined_const _ s hne hall, if_pos (by simpa using h5)]
    ring
  · have hc : categoryOf "Delta Watch" = "watch" := by decide
    norm_num [searchProduct, find_exact_match_by_hash, tier2Results, kValue,
      pyTruthy, search_similar_product, productAggregates, processHit, updAgg,
      aggToResult, combined_score, sortDescBy, insertDescBy, qMax,
      top5Enhanced, hc, SIMILARITY_THRESHOLD_HIGH]

/-- Witness for C10 at `s = 0.95`, `n = 5`. -/
theorem combined_score_can_exceed_one_witness :
    5 ≤ 5 ∧
      combined_score (List.replicate 5 (0.95 : ℚ)) = 1.10 * 0.95 ∧
      (1 : ℚ) < 209/200 :=
  ⟨by norm_num, (combined_score_can_exceed_one 0.95 5 (by norm_num)).1,
    (combined_score_can_exceed_one 0.95 5 (by norm_num)).2.2⟩

/-- C5 counterexample: in the 3-product scenario the top result's
combined score is the claimed expression `0.8*0.9 + 0.1*0.875 + 0.1*0.875`,
but that expression equals 0.895, not (even approximately) the 0.8875 the
claim states. -/
theorem scenario_top_score_not_08875 :
    search_similar_product
        [⟨"Alpha Watch", "uA", "iA0", "100"⟩, ⟨"Alpha Watch", "uA", "iA1", "100"⟩,
         ⟨"Beta Bag", "uB", "iB0", "50"⟩, ⟨"Beta Bag", "uB", "iB1", "50"⟩,
         ⟨"Gamma Shoes", "uC", "iC0", "20"⟩, ⟨"Gamma Shoes", "uC", "iC1", "20"⟩]
        true [(0.9, 0), (0.85, 1), (0.65, 2), (0.1, 4)] =
      [⟨"Alpha Watch", "uA", "iA0", "100", 179/200, 9/10, 7/8, 2, 0⟩,
       ⟨"Beta Bag", "uB", "iB0", "50", 13/20, 13/20, 13/20, 1, 2⟩,
       ⟨"Gamma Shoes", "uC", "iC0", "20", 1/10, 1/10, 1/10, 1, 4⟩] ∧
    (⟨"Alpha Watch", "uA", "iA0", "100", 179/200, 9/10, 7/8, 2, 0⟩ :
        SearchResult).similarity_score =
      0.8 * 0.9 + 0.1 * 0.875 + 0.1 * 0.875 ∧
    (⟨"Alpha Watch", "uA", "iA0", "100", 179/200, 9/10, 7/8, 2, 0⟩ :
        SearchResult).similarity_score = 0.895 ∧
    (⟨"Alpha Watch", "uA", "iA0", "100", 179/200, 9/10, 7/8, 2, 0⟩ :
        SearchResult).similarity_score ≠ 0.8875 ∧
    ¬ |(⟨"Alpha Watch", "uA", "iA0", "100", 179/200, 9/10, 7/8, 2, 0⟩ :
        SearchResult).similarity_score - 0.8875| ≤ 0.005 := by
  refine ⟨?_, by norm_num, by norm_num, by norm_num, ?_⟩
  · norm_num [search_similar_product, productAggregates, processHit, updAgg,
      aggToResult, combined_score, sortDescBy, insertDescBy, qMax]
  · rw [show (⟨"Alpha Watch", "uA", "iA0", "100", 179/200, 9/10, 7/8, 2, 0⟩ :
        SearchResult).similarity_score - 0.8875 = 0.0075 by norm_num]
    rw [abs_of_pos (by norm_num)]
    norm_num

/-- C5 amended: same scenario with the correct value: the top result is A
with `combined_score = 0.8*0.9 + 0.1*0.875 + 0.1*0.875 = 0.895` and
confidence HIGH; B appears in the top-5 list with its 0.65 score in the
LOW band; C ranks below both. -/
theorem scenario_ranking_amended :
    search_similar_product
        [⟨"Alpha Watch", "uA", "iA0", "100"⟩, ⟨"Alpha Watch", "uA", "iA1", "100"⟩,
         ⟨"Beta Bag", "uB", "iB0", "50"⟩, ⟨"Beta Bag", "uB", "iB1", "50"⟩,
         ⟨"Gamma Shoes", "uC", "iC0", "20"⟩, ⟨"Gamma Shoes", "uC", "iC1", "20"⟩]
        true [(0.9, 0), (0.85, 1), (0.65, 2), (0.1, 4)] =
      [⟨"Alpha Watch", "uA", "iA0", "100", 179/200, 9/10, 7/8, 2, 0⟩,
       ⟨"Beta Bag", "uB", "iB0", "50", 13/20, 13/20, 13/20, 1, 2⟩,
       ⟨"Gamma Shoes", "uC", "iC0", "20", 1/10, 1/10, 1/10, 1, 4⟩] ∧
    (179/200 : ℚ) = 0.8 * 0.9 + 0.1 * 0.875 + 0.1 * 0.875 ∧
    (179/200 : ℚ) = 0.895 ∧
    searchProduct
        ⟨[⟨"Alpha Watch", "uA", "iA0", "100"⟩, ⟨"Alpha Watch", "uA", "iA1", "100"⟩,
          ⟨"Beta Bag", "uB", "iB0", "50"⟩, ⟨"Beta Bag", "uB", "iB1", "50"⟩,
          ⟨"Gamma Shoes", "uC", "iC0", "20"⟩, ⟨"Gamma Shoes", "uC", "iC1", "20"⟩], []⟩
        [] none (fun _ => [(0.9, 0), (0.85, 1), (0.65, 2), (0.1, 4)]) true =
      Response.matchFound "HIGH" "Alpha Watch" "uA" "100" "watch" (179/200) "iA0"
        none
        [⟨"Alpha Watch", "uA", "100", "watch", 179/200, "iA0"⟩,
         ⟨"Beta Bag", "uB", "50", "bag", 13/20, "iB0"⟩,
         ⟨"Gamma Shoes", "uC", "20", "shoes", 1/10, "iC0"⟩] ∧
    SIMILARITY_THRESHOLD_HIGH ≤ 179/200 ∧
    SIMILARITY_THRESHOLD_LOW ≤ (13/20 : ℚ) ∧
    (13/20 : ℚ) < SIMILARITY_THRESHOLD_MEDIUM := by
  have hcA : categoryOf "Alpha Watch" = "watch" := by decide
  have hcB : categoryOf "Beta Bag" = "bag" := by decide
  have hcC : categoryOf "Gamma Shoes" = "shoes" := by decide
  refine ⟨?_, by norm_num, by norm_num, ?_,
    by norm_num [SIMILARITY_THRESHOLD_HIGH],
    by norm_num [SIMILARITY_THRESHOLD_LOW],
    by norm_num [SIMILARITY_THRESHOLD_MEDIUM]⟩
  · norm_num [search_similar_product, productAggregates, processHit, updAgg,
      aggToResult, combined_score, sortDescBy, insertDescBy, qMax]
  · norm_num [searchProduct, find_exact_match_by_hash, tier2Results, kValue,
      pyTruthy, search_similar_product, productAggregates, processHit, updAgg,
      aggToResult, combined_score, sortDescBy, insertDescBy, qMax,
      top5Enhanced, hcA, hcB, hcC, SIMILARITY_THRESHOLD_HIGH]

/-! The indexer's slot/metadata alignment invariant. -/

theorem process_images_spec :
    ∀ (imgs : List (Option ImgRes)) (st : BuildState),
      process_images st imgs =
        ⟨st.embeddings ++ (imgs.filterMap id).map (fun r => r.1),
         st.metadata ++ (imgs.filterMap id).map (fun r => r.2.1),
         st.hash_index ++
           List.enumFrom st.embeddings.length
             ((imgs.filterMap id).map (fun r => r.2.2))⟩ := by
  intro imgs
  induction imgs with
  | nil =>
    intro st
    cases st
    simp [process_images]
  | cons r imgs ih =>
    intro st
    cases r with
    | none =>
      have hstep : process_images st (none :: imgs) = process_images st imgs := by
        simp [process_images, addImage]
      rw [hstep, ih st]
      simp
    | some t =>
      obtain ⟨e, m, h⟩ := t
      have hstep : process_images st (some (e, m, h) :: imgs) =
          process_images ⟨st.embeddings ++ [e], st.metadata ++ [m],
            st.hash_index ++ [(st.embeddings.length, h)]⟩ imgs := by
        simp [process_images, addImage]
      rw [hstep, ih]
      simp [List.enumFrom, List.append_assoc]

theorem process_products_spec :
    ∀ (productImages : List (List (Option ImgRes))) (st : BuildState),
      process_products st productImages =
        ⟨st.embeddings ++ (successfulResults productImages).map (fun r => r.1),
         st.metadata ++ (successfulResults productImages).map (fun r => r.2.1),
         st.hash_index ++
           List.enumFrom st.embeddings.length
             ((successfulResults productImages).map (fun r => r.2.2))⟩ := by
  intro productImages
  induction productImages with
  | nil =>
    intro st
    cases st
    simp [process_products, successfulResults]
  | cons imgs rest ih =>
    intro st
    have hstep : process_products st (imgs :: rest) =
        process_products (process_images st imgs) rest := by
      simp [process_products]
    rw [hstep, ih, process_images_spec]
    have hsucc : successfulResults (imgs :: rest) =
        imgs.filterMap id ++ successfulResults rest := by
      simp [successfulResults, List.filterMap_append]
    rw [hsucc]
    simp only [List.map_append, List.enumFrom_append, List.append_assoc,
      List.length_append, List.length_map]

/-- C7: after any completed build — whatever images were skipped and in
whatever completion order the worker pool delivered the rest — the three
stores hold exactly the successful images: the embedding list, metadata
list and hash index are the per-component projections of the successful
results in processing order (so skipped images get no slot at all), all
three have identical length, and the FAISS index built from the embedding
list (when non-empty) has that same length. -/
theorem build_alignment_invariant (productImages : List (List (Option ImgRes))) :
    (process_products initState productImages).embeddings =
        (successfulResults productImages).map (fun r => r.1) ∧
      (process_products initState productImages).metadata =
        (successfulResults productImages).map (fun r => r.2.1) ∧
      (process_products initState productImages).hash_index =
        ((successfulResults productImages).map (fun r => r.2.2)).enum ∧
      (process_products initState productImages).embeddings.length =
        (process_products initState productImages).metadata.length ∧
      (process_products initState productImages).metadata.length =
        (process_products initState productImages).hash_index.length ∧
      ∀ fidx,
        create_faiss_index (process_products initState productImages).embeddings =
          some fidx →
        fidx.length = (process_products initState productImages).metadata.length := by
  rw [process_products_spec productImages initState]
  refine ⟨by simp [initState], by simp [initState], by simp [initState, List.enum], ?_, ?_, ?_⟩
  · simp [initState]
  · simp [initState]
  · intro fidx hf
    simp only [create_faiss_index, initState] at hf
    split at hf
    · cases hf
    · cases hf
      simp [initState]

/-- Witness for C7: a two-product build whose second product's only image
was skipped. -/
theorem build_alignment_invariant_witness :
    create_faiss_index
        (process_products initState
          [[some ([1], ⟨"W", "u", "i", "p"⟩, [true])], [none]]).embeddings =
      some [[1]] ∧
    ([[1]] : List Emb).length =
      (process_products initState
        [[some ([1], ⟨"W", "u", "i", "p"⟩, [true])], [none]]).metadata.length :=
  ⟨by decide, (build_alignment_invariant
    [[some ([1], ⟨"W", "u", "i", "p"⟩, [true])], [none]]).2.2.2.2.2 [[1]] (by decide)⟩
